import Mathlib

/-!
Verification of the one-port network algebra of `lcapy/oneport.py`.

The module represents electrical one-port networks as a tree of leaf
components (`R`, `L`, `C`, `G`, sources, ...) combined with `Ser` (series)
and `Par` (parallel) nodes, and derives the four driving-point quantities
(impedance, admittance, open-circuit voltage `Voc`, short-circuit current
`Isc`) by ordered fallback rules.  This file embeds the data model and the
operations of that module and proves properties about them.
-/

namespace Lcapy

/-- Modelled from the spec: the external opaque SymbolicValue (the symbolic
algebra engine is out of scope of the repository source).  It is an immutable
symbolic scalar supporting `+ - * /`, an equality test (including `== 0`) and
rational-constant auto-evaluation.  `svar` is the Laplace variable `s`;
`inf` is the value the engine produces for a division by zero (complex
infinity). -/
inductive SymExpr : Type
  | const (q : ℚ)
  | svar
  | add (a b : SymExpr)
  | mul (a b : SymExpr)
  | div (a b : SymExpr)
  | inf
  deriving DecidableEq, Repr

namespace SymExpr

/-- Modelled from the spec: addition in the external engine, with the
auto-evaluation sympy performs (rational constants fold, `0` is an identity,
an infinite operand absorbs). -/
def addE : SymExpr → SymExpr → SymExpr
  | const a, const b => const (a + b)
  | inf, _ => inf
  | _, inf => inf
  | a, b =>
      if a = const 0 then b
      else if b = const 0 then a
      else add a b

/-- Modelled from the spec: multiplication in the external engine, with
rational folding and the identities `1 * e = e`, `0 * e = 0`. -/
def mulE : SymExpr → SymExpr → SymExpr
  | const a, const b => const (a * b)
  | inf, _ => inf
  | _, inf => inf
  | a, b =>
      if a = const 0 ∨ b = const 0 then const 0
      else if a = const 1 then b
      else if b = const 1 then a
      else mul a b

/-- Modelled from the spec: division in the external engine.  A division by
the zero constant produces the infinite value (sympy `zoo`), a division of
zero or by an infinite value produces zero, and rational constants fold. -/
def divE (a b : SymExpr) : SymExpr :=
  if b = const 0 then inf
  else
    match a, b with
    | const x, const y => const (x / y)
    | _, inf => const 0
    | a, b =>
        if a = const 0 then const 0
        else if b = const 1 then a
        else div a b

/-- The engine's test `expr == 0`: after auto-evaluation a value is zero
exactly when it is the zero constant. -/
def isZero : SymExpr → Bool
  | const q => q = 0
  | _ => false

/-- Evaluation of a symbolic value at a concrete rational Laplace point
`s := q`; `none` when the value is infinite or a division by zero occurs. -/
def eval (q : ℚ) : SymExpr → Option ℚ
  | const c => some c
  | svar => some q
  | add a b => do pure ((← eval q a) + (← eval q b))
  | mul a b => do pure ((← eval q a) * (← eval q b))
  | div a b => do
      let x ← eval q a
      let y ← eval q b
      if y = 0 then none else pure (x / y)
  | inf => none

end SymExpr

/-- The semantic tag of a quantity wrapper (`Impedance`, `Admittance`,
`Voltage`, `Current` are thin tags over a symbolic value). -/
inductive QTag : Type
  | impedance
  | admittance
  | voltage
  | current
  deriving DecidableEq, Repr

open SymExpr

/-- A leaf component class of `oneport.py`.  One constructor per concrete
Python class.  Numeric parameters that the source passes through `cExpr`
(constant expressions) are rationals; parameters that the source stores as
general symbolic values are `SymExpr`.  For the AC/step/noise/time-domain
source classes the constructor argument here is the stored source value
itself (`_Voc` resp. `_Isc`): the source builds it from its numeric
arguments via the external domain-tagged engine, which is outside this
embedding. -/
inductive Cpt : Type
  | R (Rval : ℚ)
  | G (Gval : ℚ)
  | L (Lval : ℚ) (i0 : Option ℚ)
  | C (Cval : ℚ) (v0 : Option ℚ)
  | Y (Yval : SymExpr)
  | Z (Zval : SymExpr)
  | V (Vval : SymExpr)
  | sV (Vval : SymExpr)
  | Vdc (v0 : ℚ)
  | Vac (voc : SymExpr)
  | Vstep (voc : SymExpr)
  | Vnoise (voc : SymExpr)
  | v (voc : SymExpr)
  | I (Ival : SymExpr)
  | sI (Ival : SymExpr)
  | Idc (i0 : ℚ)
  | Iac (isc : SymExpr)
  | Istep (isc : SymExpr)
  | Inoise (isc : SymExpr)
  | i (isc : SymExpr)
  | W
  | O
  | Dummy
  deriving DecidableEq, Repr

/-- The Python class of a leaf (the `__class__` attribute, used by
`isinstance` checks on concrete classes and by `_combine`'s same-class
test).  No leaf class of the source subclasses another concrete leaf class:
the variants of the voltage/current source families are siblings under the
abstract `VoltageSource`/`CurrentSource` bases. -/
inductive CKind : Type
  | R | G | L | C | Y | Z
  | V | sV | Vdc | Vac | Vstep | Vnoise | v
  | I | sI | Idc | Iac | Istep | Inoise | i
  | W | O | Dummy
  deriving DecidableEq, Repr

def Cpt.kind : Cpt → CKind
  | .R _ => .R
  | .G _ => .G
  | .L _ _ => .L
  | .C _ _ => .C
  | .Y _ => .Y
  | .Z _ => .Z
  | .V _ => .V
  | .sV _ => .sV
  | .Vdc _ => .Vdc
  | .Vac _ => .Vac
  | .Vstep _ => .Vstep
  | .Vnoise _ => .Vnoise
  | .v _ => .v
  | .I _ => .I
  | .sI _ => .sI
  | .Idc _ => .Idc
  | .Iac _ => .Iac
  | .Istep _ => .Istep
  | .Inoise _ => .Inoise
  | .i _ => .i
  | .W => .W
  | .O => .O
  | .Dummy => .Dummy

/-- `isinstance(x, V)`: only the arbitrary-voltage-source class `V` itself
(it has no subclasses in the source). -/
def Cpt.isV (c : Cpt) : Bool := c.kind = .V

/-- `isinstance(x, I)`: only the arbitrary-current-source class `I` itself. -/
def Cpt.isI (c : Cpt) : Bool := c.kind = .I

/-- `isinstance(x, (R, Z))`. -/
def Cpt.isRorZ (c : Cpt) : Bool := c.kind = .R || c.kind = .Z

/-- `isinstance(x, (Y, G))`. -/
def Cpt.isYorG (c : Cpt) : Bool := c.kind = .Y || c.kind = .G

/-- Subclasses of `CurrentSource`. -/
def Cpt.isCurrentSource (c : Cpt) : Bool :=
  match c.kind with
  | .I | .sI | .Idc | .Iac | .Istep | .Inoise | .i => true
  | _ => false

/-- Subclasses of `VoltageSource`. -/
def Cpt.isVoltageSource (c : Cpt) : Bool :=
  match c.kind with
  | .V | .sV | .Vdc | .Vac | .Vstep | .Vnoise | .v => true
  | _ => false

/-- The four directly stored characterizing quantities of a `OnePort`
instance: `_Z`, `_Y`, `_Voc`, `_Isc` (each `None` by default, set by the
leaf constructors). -/
structure LeafState : Type where
  Z : Option SymExpr
  Y : Option SymExpr
  Voc : Option SymExpr
  Isc : Option SymExpr
  deriving DecidableEq, Repr

/-- What each leaf constructor stores, following each `__init__` of
`oneport.py`:
* `R(Rval)` sets `_Z = Impedance(Rval)`;
* `G(Gval)` sets `_Z = 1 / Admittance(Gval)`;
* `L(Lval, i0)` sets `_Z = Impedance(s * Lval)` and
  `_Voc = Voltage(-Vs(i0 * Lval))` with `i0` defaulting to `0`;
* `C(Cval, v0)` sets `_Z = Impedance(1 / (s * Cval))` and
  `_Voc = Voltage(Vs(v0) / s)` with `v0` defaulting to `0`;
* `Y(Yval)` sets `_Z = 1 / Yval` (note: not `_Y`);
* `Z(Zval)` sets `_Z = Zval`;
* the voltage-source classes set `_Voc`, the current-source classes set
  `_Isc`;
* `W()` sets `_Z = Impedance(0)`, `O()` sets `_Y = Admittance(0)`;
* `Dummy()` sets nothing (all four stay `None`). -/
def leafState : Cpt → LeafState
  | .R Rval => ⟨some (const Rval), none, none, none⟩
  | .G Gval => ⟨some (divE (const 1) (const Gval)), none, none, none⟩
  | .L Lval i0 =>
      ⟨some (mulE svar (const Lval)), none,
       some (mulE (const (-1)) (mulE (const (i0.getD 0)) (const Lval))), none⟩
  | .C Cval v0 =>
      ⟨some (divE (const 1) (mulE svar (const Cval))), none,
       some (divE (const (v0.getD 0)) svar), none⟩
  | .Y Yval => ⟨some (divE (const 1) Yval), none, none, none⟩
  | .Z Zval => ⟨some Zval, none, none, none⟩
  | .V Vval => ⟨none, none, some Vval, none⟩
  | .sV Vval => ⟨none, none, some Vval, none⟩
  | .Vdc v0 => ⟨none, none, some (const v0), none⟩
  | .Vac voc => ⟨none, none, some voc, none⟩
  | .Vstep voc => ⟨none, none, some voc, none⟩
  | .Vnoise voc => ⟨none, none, some voc, none⟩
  | .v voc => ⟨none, none, some voc, none⟩
  | .I Ival => ⟨none, none, none, some Ival⟩
  | .sI Ival => ⟨none, none, none, some Ival⟩
  | .Idc i0 => ⟨none, none, none, some (const i0)⟩
  | .Iac isc => ⟨none, none, none, some isc⟩
  | .Istep isc => ⟨none, none, none, some isc⟩
  | .Inoise isc => ⟨none, none, none, some isc⟩
  | .i isc => ⟨none, none, none, some isc⟩
  | .W => ⟨some (const 0), none, none, none⟩
  | .O => ⟨none, some (const 0), none, none⟩
  | .Dummy => ⟨none, none, none, none⟩

/-- `OnePort.impedance` (property): stored `_Z`; else `Impedance(1 / _Y)`;
else `Impedance(0)` if `_Voc` is set; else `Impedance(1 / Admittance(0))`
if `_Isc` is set; else raise `ValueError`. -/
def leafImpedance (st : LeafState) : Except String SymExpr :=
  match st.Z with
  | some z => .ok z
  | none =>
    match st.Y with
    | some y => .ok (divE (const 1) y)
    | none =>
      match st.Voc with
      | some _ => .ok (const 0)
      | none =>
        match st.Isc with
        | some _ => .ok (divE (const 1) (const 0))
        | none => .error "ValueError: _Isc, _Voc, _Y, or _Z undefined"

/-- `OnePort.admittance` (property): stored `_Y`; else
`Admittance(1 / self.impedance)`. -/
def leafAdmittance (st : LeafState) : Except String SymExpr :=
  match st.Y with
  | some y => .ok y
  | none => do .ok (divE (const 1) (← leafImpedance st))

/-- `OnePort.Voc` (property): stored `_Voc` (a `Voltage`); else
`_Isc * self.impedance`; else `Voltage(0)` if `_Z` is set; else
`Current(0)` if `_Y` is set (the source really returns a `Current` here);
else raise `ValueError`. -/
def leafVoc (st : LeafState) : Except String (QTag × SymExpr) :=
  match st.Voc with
  | some voc => .ok (.voltage, voc)
  | none =>
    match st.Isc with
    | some isc => do .ok (.voltage, mulE isc (← leafImpedance st))
    | none =>
      match st.Z with
      | some _ => .ok (.voltage, const 0)
      | none =>
        match st.Y with
        | some _ => .ok (.current, const 0)
        | none => .error "ValueError: _Isc, _Voc, _Y, or _Z undefined"

/-- `OnePort.Isc` (property): stored `_Isc`; else `self.Voc / self.impedance`. -/
def leafIsc (st : LeafState) : Except String SymExpr :=
  match st.Isc with
  | some isc => .ok isc
  | none => do
      let vq ← leafVoc st
      let z ← leafImpedance st
      .ok (divE vq.2 z)

/-- A one-port network: a leaf component or a `Ser`/`Par` composite over an
ordered argument list. -/
inductive OnePort : Type
  | leaf (c : Cpt)
  | ser (args : List OnePort)
  | par (args : List OnePort)

/-- Whether a network node is a leaf of Python class `V`. -/
def OnePort.isVLeaf : OnePort → Bool
  | .leaf c => c.isV
  | _ => false

/-- Whether a network node is a leaf of Python class `I`. -/
def OnePort.isILeaf : OnePort → Bool
  | .leaf c => c.isI
  | _ => false

/-- Whether a network node is a leaf of a `VoltageSource` subclass. -/
def OnePort.isVoltageLeaf : OnePort → Bool
  | .leaf c => c.isVoltageSource
  | _ => false

/-- Whether a network node is a leaf of a `CurrentSource` subclass. -/
def OnePort.isCurrentLeaf : OnePort → Bool
  | .leaf c => c.isCurrentSource
  | _ => false

/-- The two `ParSer` operators. -/
inductive PS : Type
  | serOp
  | parOp
  deriving DecidableEq, Repr

/-- Build the composite node of the given operator. -/
def PS.mk : PS → List OnePort → OnePort
  | .serOp, args => .ser args
  | .parOp, args => .par args

/-- Whether some two distinct positions of the list satisfy `p` (the shape of
the pairwise `for n / for arg2 in args[n+1:]` scan of the constructors). -/
def hasTwo (p : OnePort → Bool) : List OnePort → Bool
  | [] => false
  | a :: rest => (p a && rest.any p) || hasTwo p rest

/-- The topology check run by `Par.__init__` and `Ser.__init__`: `Par` raises
`ValueError` when two arguments are instances of class `V`, `Ser` raises when
two arguments are instances of class `I`.  (The redundancy warnings the
constructors print are not modelled.) -/
def ctorCheck (op : PS) (args : List OnePort) : Except String Unit :=
  match op with
  | .parOp =>
      if hasTwo OnePort.isVLeaf args then
        .error "ValueError: Voltage sources connected in parallel"
      else .ok ()
  | .serOp =>
      if hasTwo OnePort.isILeaf args then
        .error "ValueError: Current sources connected in series"
      else .ok ()

/-- `Ser(*args)`. -/
def mkSer (args : List OnePort) : Except String OnePort := do
  ctorCheck .serOp args
  .ok (.ser args)

/-- `Par(*args)`. -/
def mkPar (args : List OnePort) : Except String OnePort := do
  ctorCheck .parOp args
  .ok (.par args)

mutual

/-- The `impedance` property on a network:
* a leaf resolves through `OnePort.impedance` (see `leafImpedance`);
* `Ser.impedance` accumulates `Z = 0; Z += arg.impedance` over its
  arguments and wraps the sum;
* `Par.impedance` is `Impedance(1 / self.admittance)` with
  `Par.admittance` the accumulated sum of the arguments' admittances. -/
def impedance : OnePort → Except String SymExpr
  | .leaf c => leafImpedance (leafState c)
  | .ser args => serZSum (const 0) args
  | .par args => do .ok (divE (const 1) (← parYSum (const 0) args))

/-- The `admittance` property on a network:
* a leaf resolves through `OnePort.admittance` (see `leafAdmittance`);
* a `Ser` node has `_Y = None`, so the inherited `OnePort.admittance`
  returns `Admittance(1 / self.impedance)` (the source's `Ser` class
  defines a property spelled `Admittance`, so lookup of `admittance` is
  inherited); the series impedance sum is inlined here;
* `Par.admittance` accumulates `Y = 0; Y += arg.admittance`. -/
def admittance : OnePort → Except String SymExpr
  | .leaf c => leafAdmittance (leafState c)
  | .ser args => do .ok (divE (const 1) (← serZSum (const 0) args))
  | .par args => parYSum (const 0) args

/-- The accumulation loop of `Ser.impedance`. -/
def serZSum (acc : SymExpr) : List OnePort → Except String SymExpr
  | [] => .ok acc
  | a :: rest => do serZSum (addE acc (← impedance a)) rest

/-- The accumulation loop of `Par.admittance`. -/
def parYSum (acc : SymExpr) : List OnePort → Except String SymExpr
  | [] => .ok acc
  | a :: rest => do parYSum (addE acc (← admittance a)) rest

end

mutual

/-- The `Voc` property on a network.  A leaf resolves through `OnePort.Voc`
(see `leafVoc`).  For a composite the source delegates to the external
netlist solver (`ParSer.Voc` returns `self.cct.Voc(1, 0)`, and the solver is
outside the repository source).  Modelled from the spec: the open-circuit
voltage of a series node is the sum of its arguments' open-circuit voltages,
and for a parallel node it is the node's total short-circuit current times
its impedance. -/
def Voc : OnePort → Except String (QTag × SymExpr)
  | .leaf c => leafVoc (leafState c)
  | .ser args => do .ok (.voltage, ← serVSum (const 0) args)
  | .par args => do
      let isum ← parISum (const 0) args
      let y ← parYSum (const 0) args
      .ok (.voltage, mulE isum (divE (const 1) y))

/-- The `Isc` property on a network.  A leaf resolves through `OnePort.Isc`
(see `leafIsc`).  Modelled from the spec: the short-circuit current of a
parallel node is the sum of its arguments' short-circuit currents, and for a
series node it is the node's open-circuit voltage divided by its impedance
(the source delegates both to the external netlist solver). -/
def Isc : OnePort → Except String SymExpr
  | .leaf c => leafIsc (leafState c)
  | .par args => parISum (const 0) args
  | .ser args => do
      let vsum ← serVSum (const 0) args
      let z ← serZSum (const 0) args
      .ok (divE vsum z)

/-- Sum of the open-circuit voltages of a series node's arguments. -/
def serVSum (acc : SymExpr) : List OnePort → Except String SymExpr
  | [] => .ok acc
  | a :: rest => do serVSum (addE acc (← Voc a).2) rest

/-- Sum of the short-circuit currents of a parallel node's arguments. -/
def parISum (acc : SymExpr) : List OnePort → Except String SymExpr
  | [] => .ok acc
  | a :: rest => do parISum (addE acc (← Isc a)) rest

end

/-- `arg.Voc == 0` on a leaf (used under an `isinstance` guard that
guarantees the property resolves). -/
def leafVocZero (c : Cpt) : Bool :=
  match leafVoc (leafState c) with
  | .ok q => isZero q.2
  | .error _ => false

/-- `arg.impedance == 0` on a leaf. -/
def leafZZero (c : Cpt) : Bool :=
  match leafImpedance (leafState c) with
  | .ok z => isZero z
  | .error _ => false

/-- `arg.Isc == 0` on a leaf. -/
def leafIscZero (c : Cpt) : Bool :=
  match leafIsc (leafState c) with
  | .ok e => isZero e
  | .error _ => false

/-- `arg.admittance == 0` on a leaf. -/
def leafYZero (c : Cpt) : Bool :=
  match leafAdmittance (leafState c) with
  | .ok y => isZero y
  | .error _ => false

/-- `ParSer._combine(arg1, arg2)`, the pairwise combination rule applied to
two sibling leaves during `simplify()`.  Returns `none` when the pair is not
combinable, and raises for series inductors (parallel capacitors) whose
initial conditions disagree.

When the two classes differ, only the degenerate-absorption rules apply:
in a `Ser`, a class-`V` source with zero `Voc` or a class-`R`/`Z` leaf with
zero impedance is absorbed (the other operand is returned); in a `Par`, a
class-`I` source with zero `Isc` or a class-`Y`/`G` leaf with zero
admittance is absorbed.

When the classes are equal the same-type composition laws apply.  For the
class-`V` (class-`I`) pair the source evaluates `V(arg1 + arg2)`
(`I(arg1 + arg2)`), handing the series (parallel) combination of the two
source one-ports to the external `Voltage` (`Current`) constructor, which
coerces it to the superposition sum of the two source values; it is
modelled here as the sum of the stored values. -/
def combine (op : PS) (c1 c2 : Cpt) : Except String (Option Cpt) :=
  if c1.kind ≠ c2.kind then
    match op with
    | .serOp =>
        if c1.isV && leafVocZero c1 then .ok (some c2)
        else if c2.isV && leafVocZero c2 then .ok (some c1)
        else if c1.isRorZ && leafZZero c1 then .ok (some c2)
        else if c2.isRorZ && leafZZero c2 then .ok (some c1)
        else .ok none
    | .parOp =>
        if c1.isI && leafIscZero c1 then .ok (some c2)
        else if c2.isI && leafIscZero c2 then .ok (some c1)
        else if c1.isYorG && leafYZero c1 then .ok (some c2)
        else if c2.isYorG && leafYZero c2 then .ok (some c1)
        else .ok none
  else
    match op with
    | .serOp =>
      match c1, c2 with
      | .I _, _ => .ok none
      | .Vdc a, .Vdc b => .ok (some (.Vdc (a + b)))
      | .V a, .V b => .ok (some (.V (addE a b)))
      | .R a, .R b => .ok (some (.R (a + b)))
      | .L l1 o1, .L l2 o2 =>
          if o1.getD 0 ≠ o2.getD 0 || o1.isSome ≠ o2.isSome then
            .error "ValueError: Series inductors with different initial currents!"
          else
            .ok (some (.L (l1 + l2) (if o1.isSome then some (o1.getD 0) else none)))
      | .G a, .G b => .ok (some (.G (a * b / (a + b))))
      | .C a o1, .C b o2 =>
          let v0 := if o1.isSome || o2.isSome then some (o1.getD 0 + o2.getD 0) else none
          .ok (some (.C (a * b / (a + b)) v0))
      | _, _ => .ok none
    | .parOp =>
      match c1, c2 with
      | .V _, _ => .ok none
      | .Idc a, .Idc b => .ok (some (.Idc (a + b)))
      | .I a, .I b => .ok (some (.I (addE a b)))
      | .G a, .G b => .ok (some (.G (a + b)))
      | .C a o1, .C b o2 =>
          if o1.getD 0 ≠ o2.getD 0 || o1.isSome ≠ o2.isSome then
            .error "ValueError: Parallel capacitors with different initial voltages!"
          else
            .ok (some (.C (a + b) (if o1.isSome then some (o1.getD 0) else none)))
      | .R a, .R b => .ok (some (.R (a * b / (a + b))))
      | .L l1 o1, .L l2 o2 =>
          let i0 := if o1.isSome || o2.isSome then some (o1.getD 0 + o2.getD 0) else none
          .ok (some (.L (l1 * l2 / (l1 + l2)) i0))
      | _, _ => .ok none

/-- The inner scan (`for m in range(n + 1, len(args))`) of `simplify`'s
pairwise-combine phase: `arg1` is the current accumulating leaf; consumed
positions hold `none`; composite entries are skipped in place.  Returns the
final `arg1`, the updated tail and whether any pair combined. -/
def innerScan (op : PS) (arg1 : Cpt) :
    List (Option OnePort) → Except String (Cpt × List (Option OnePort) × Bool)
  | [] => .ok (arg1, [], false)
  | x :: rest =>
    match x with
    | some (.leaf c2) =>
      match combine op arg1 c2 with
      | .error e => .error e
      | .ok (some nc) =>
        match innerScan op nc rest with
        | .error e => .error e
        | .ok (a, r, _) => .ok (a, none :: r, true)
      | .ok none =>
        match innerScan op arg1 rest with
        | .error e => .error e
        | .ok (a, r, ch) => .ok (a, some (.leaf c2) :: r, ch)
    | _ =>
      match innerScan op arg1 rest with
      | .error e => .error e
      | .ok (a, r, ch) => .ok (a, x :: r, ch)

/-- The inner scan keeps every position of the tail in place (a consumed
argument is overwritten with `none`, not removed), so it preserves the
length of the list. -/
theorem innerScan_length (op : PS) :
    ∀ (l : List (Option OnePort)) (arg1 a : Cpt) (r : List (Option OnePort))
      (ch : Bool), innerScan op arg1 l = .ok (a, r, ch) → r.length = l.length := by
  intro l
  induction l with
  | nil =>
      intro arg1 a r ch h
      simp only [innerScan] at h
      cases h
      rfl
  | cons x rest ih =>
      intro arg1 a r ch h
      rcases x with _ | p
      · simp only [innerScan] at h
        split at h
        · cases h
        · rename_i hr
          cases h
          simpa using ih _ _ _ _ hr
      · rcases p with c2 | as | as
        · simp only [innerScan] at h
          split at h
          · cases h
          · split at h
            · cases h
            · rename_i hr
              cases h
              simpa using ih _ _ _ _ hr
          · split at h
            · cases h
            · rename_i hr
              cases h
              simpa using ih _ _ _ _ hr
        · simp only [innerScan] at h
          split at h
          · cases h
          · rename_i hr
            cases h
            simpa using ih _ _ _ _ hr
        · simp only [innerScan] at h
          split at h
          · cases h
          · rename_i hr
            cases h
            simpa using ih _ _ _ _ hr

/-- The outer scan (`for n in range(len(args))`) of the pairwise-combine
phase: each not-yet-consumed leaf position is combined with every later
compatible leaf via `innerScan`; `none` entries and composite entries are
passed over.  (The loop is over positions of a fixed-length list, so the
recursion is on the length, which `innerScan` preserves.) -/
def outerScan (op : PS) :
    List (Option OnePort) → Except String (List (Option OnePort) × Bool)
  | [] => .ok ([], false)
  | x :: rest =>
    match x with
    | some (.leaf c1) =>
      match h : innerScan op c1 rest with
      | .error e => .error e
      | .ok (c1', rest', ch1) =>
        match outerScan op rest' with
        | .error e => .error e
        | .ok (r, ch2) => .ok (some (.leaf c1') :: r, ch1 || ch2)
    | _ =>
      match outerScan op rest with
      | .error e => .error e
      | .ok (r, ch) => .ok (x :: r, ch)
termination_by l => l.length
decreasing_by
  · simp [innerScan_length op rest c1 c1' rest' ch1 h]
  · simp

/-- The pairwise-combine phase of `ParSer.simplify` on a flattened argument
list: scan all pairs; if anything combined, drop the consumed (`None`)
entries, collapse to the single remaining argument if only one is left, and
otherwise rebuild the composite (re-running its constructor check);
if nothing combined, return the composite unchanged. -/
def combinePhase (op : PS) (args : List OnePort) : Except String OnePort := do
  let (args', changed) ← outerScan op (args.map some)
  if changed then
    let final := args'.reduceOption
    match final with
    | [a] => .ok a
    | _ => do
        ctorCheck op final
        .ok (op.mk final)
  else
    .ok (op.mk args)

mutual

/-- `ParSer.simplify`: recursively simplify composite arguments, splicing a
simplified child of the same operator into the parent's argument list; when
any child was a composite the node is rebuilt (re-running the constructor
check); then run the pairwise-combine phase.  Modelled from the spec for a
leaf: `simplify` of a leaf returns the leaf itself (the base-class method is
outside the repository source). -/
def simplify : OnePort → Except String OnePort
  | .leaf c => .ok (.leaf c)
  | .ser args => do
      let (flat, anyComposite) ← flattenArgs .serOp args
      if anyComposite then ctorCheck .serOp flat else pure ()
      combinePhase .serOp flat
  | .par args => do
      let (flat, anyComposite) ← flattenArgs .parOp args
      if anyComposite then ctorCheck .parOp flat else pure ()
      combinePhase .parOp flat

/-- The flattening loop of `ParSer.simplify`: each composite argument is
simplified, and spliced into the parent if it is still a composite of the
same operator; the boolean records whether any argument was a composite
(the condition under which the source rebuilds the node). -/
def flattenArgs (op : PS) : List OnePort → Except String (List OnePort × Bool)
  | [] => .ok ([], false)
  | a :: rest =>
    match a with
    | .leaf c => do
        let (r, ch) ← flattenArgs op rest
        .ok (.leaf c :: r, ch)
    | .ser as => do
        let a' ← simplify (.ser as)
        let (r, _) ← flattenArgs op rest
        match op, a' with
        | .serOp, .ser as' => .ok (as' ++ r, true)
        | _, _ => .ok (a' :: r, true)
    | .par as => do
        let a' ← simplify (.par as)
        let (r, _) ← flattenArgs op rest
        match op, a' with
        | .parOp, .par as' => .ok (as' ++ r, true)
        | _, _ => .ok (a' :: r, true)

end

/-- Modelled from the spec: `cpt()` on a resolved voltage converts it back
into a physical-domain source leaf; with untagged (general-domain) symbolic
values this is the arbitrary voltage source `V`. -/
def cptVoltage (e : SymExpr) : OnePort := .leaf (.V e)

/-- Modelled from the spec: `cpt()` on a resolved current gives the
arbitrary current source leaf `I`. -/
def cptCurrent (e : SymExpr) : OnePort := .leaf (.I e)

/-- Modelled from the spec: `cpt()` on a resolved impedance gives the
general impedance leaf `Z`. -/
def cptImpedance (e : SymExpr) : OnePort := .leaf (.Z e)

/-- Modelled from the spec: `cpt()` on a resolved admittance gives the
general admittance leaf `Y`. -/
def cptAdmittance (e : SymExpr) : OnePort := .leaf (.Y e)

/-- `OnePort.thevenin()`: simplify the network, read its `Voc` and
impedance, resolve the domain (with untagged symbolic values the
superposition/ac/dc branches do not fire, so the general branch passes
`Voc` and `Z` through unchanged — the claim under verification is about
what happens after this step), convert both to leaf components with
`cpt()`, and return `Ser(Z1, V1)` — degenerating to `Z1` alone when
`Voc == 0` and (otherwise) to `V1` alone when `Z == 0`. -/
def thevenin (n : OnePort) : Except String OnePort := do
  let new ← simplify n
  let vq ← Voc new
  let z ← impedance new
  let V1 := cptVoltage vq.2
  let Z1 := cptImpedance z
  if isZero vq.2 then .ok Z1
  else if isZero z then .ok V1
  else do
    ctorCheck .serOp [Z1, V1]
    .ok (.ser [Z1, V1])

/-- `OnePort.norton()`: the dual of `thevenin()` — simplify, read `Isc` and
admittance, resolve the domain (general branch, as above), convert with
`cpt()`, and return `Par(Y1, I1)` — degenerating to `Y1` alone when
`Isc == 0` and (otherwise) to `I1` alone when `Y == 0`. -/
def norton (n : OnePort) : Except String OnePort := do
  let new ← simplify n
  let isc ← Isc new
  let y ← admittance new
  let I1 := cptCurrent isc
  let Y1 := cptAdmittance y
  if isZero isc then .ok Y1
  else if isZero y then .ok I1
  else do
    ctorCheck .parOp [Y1, I1]
    .ok (.par [Y1, I1])

/-- The `V` property: `OnePort.V` returns `self.Voc` for every one-port. -/
def Vprop (n : OnePort) : Except String (QTag × SymExpr) := Voc n

/-- The `I` property: `OnePort.I` returns `Current(0)` (the open-circuit
current) for every one-port except that `CurrentSource.I` overrides it to
return `self.Isc`. -/
def Iprop (n : OnePort) : Except String (QTag × SymExpr) :=
  match n with
  | .leaf c =>
      if c.isCurrentSource then do .ok (.current, ← leafIsc (leafState c))
      else .ok (.current, const 0)
  | _ => .ok (.current, const 0)

/-- `FerriteBead.expand()`:
`R(self.Rs) + (R(self.Rp) + L(self.Lp) + C(self.Cp))`, with `+` the series
combinator (each application of `+` builds a two-argument `Ser`). -/
def FerriteBead.expand (Rs Rp Cp Lp : ℚ) : OnePort :=
  .ser [.leaf (.R Rs),
        .ser [.ser [.leaf (.R Rp), .leaf (.L Lp none)], .leaf (.C Cp none)]]

/-- The `_Z` that `FerriteBead.__init__` fixes at construction:
`self._Z = self.expand().impedance`. -/
def FerriteBead.Z (Rs Rp Cp Lp : ℚ) : Except String SymExpr :=
  impedance (FerriteBead.expand Rs Rp Cp Lp)

mutual

/-- Whether a network tree contains a `Par` node anywhere. -/
def containsPar : OnePort → Bool
  | .leaf _ => false
  | .par _ => true
  | .ser args => containsParList args

/-- Whether some member of the list contains a `Par` node. -/
def containsParList : List OnePort → Bool
  | [] => false
  | a :: rest => containsPar a || containsParList rest

end

/-- Evaluate a resolved impedance at a concrete Laplace point. -/
def zEval (r : Except String SymExpr) (q : ℚ) : Option ℚ :=
  match r with
  | .ok z => z.eval q
  | .error _ => none

/-- A series-degenerate leaf: a class-`V` source with zero open-circuit
voltage, or a class-`R`/`Z` leaf with zero impedance. -/
def serDegenerate (c : Cpt) : Bool :=
  (c.isV && leafVocZero c) || (c.isRorZ && leafZZero c)

/-- A parallel-degenerate leaf: a class-`I` source with zero short-circuit
current, or a class-`Y`/`G` leaf with zero admittance. -/
def parDegenerate (c : Cpt) : Bool :=
  (c.isI && leafIscZero c) || (c.isYorG && leafYZero c)

/-! ## Theorems -/

/-- C1: for every leaf one-port, reading the `impedance` property resolves
in exactly this order, first match winning: the stored `_Z` if set;
otherwise `Impedance(1/_Y)` if `_Y` is set; otherwise `Impedance(0)` if
`_Voc` is set; otherwise `Impedance(1/Admittance(0))` if `_Isc` is set;
and if none of the four is set the access fails with an error instead of
returning a value.  (Every leaf reads the property through its stored
state: `impedance (.leaf c) = leafImpedance (leafState c)` by
definition.) -/
theorem impedance_resolution_order (st : LeafState) :
    (∀ z, st.Z = some z → leafImpedance st = .ok z) ∧
    (st.Z = none → ∀ y, st.Y = some y →
      leafImpedance st = .ok (divE (const 1) y)) ∧
    (st.Z = none → st.Y = none → ∀ w, st.Voc = some w →
      leafImpedance st = .ok (const 0)) ∧
    (st.Z = none → st.Y = none → st.Voc = none → ∀ w, st.Isc = some w →
      leafImpedance st = .ok (divE (const 1) (const 0))) ∧
    (st.Z = none → st.Y = none → st.Voc = none → st.Isc = none →
      ∃ msg, leafImpedance st = .error msg) ∧
    (∀ c : Cpt, impedance (.leaf c) = leafImpedance (leafState c)) := by
  obtain ⟨z0, y0, v0, i0⟩ := st
  refine ⟨?_, ?_, ?_, ?_, ?_, ?_⟩
  · intro z hz
    cases hz
    rfl
  · intro hz y hy
    cases hz; cases hy
    rfl
  · intro hz hy w hv
    cases hz; cases hy; cases hv
    rfl
  · intro hz hy hv w hi
    cases hz; cases hy; cases hv; cases hi
    rfl
  · intro hz hy hv hi
    cases hz; cases hy; cases hv; cases hi
    exact ⟨_, rfl⟩
  · intro c
    simp [impedance]

/-- C1 witness: a concrete instantiation of each clause (the `_Voc` branch
at a voltage-source state, the `_Isc` branch, and the failure branch at the
all-unset state of a bare `Dummy`). -/
theorem impedance_resolution_order_witness :
    leafImpedance ⟨none, none, some (const 5), none⟩ = .ok (const 0) ∧
    leafImpedance ⟨none, none, none, some (const 5)⟩ =
      .ok (divE (const 1) (const 0)) ∧
    ∃ msg, leafImpedance (leafState .Dummy) = .error msg :=
  ⟨(impedance_resolution_order ⟨none, none, some (const 5), none⟩).2.2.1
      rfl rfl (const 5) rfl,
   (impedance_resolution_order ⟨none, none, none, some (const 5)⟩).2.2.2.1
      rfl rfl rfl (const 5) rfl,
   (impedance_resolution_order (leafState .Dummy)).2.2.2.2.1
      rfl rfl rfl rfl⟩

/-- C7: for every leaf one-port, `Voc` resolves in exactly this order: the
stored `_Voc` if set; else `_Isc * impedance` if `_Isc` is set; else
`Voltage(0)` if `_Z` is set; else `Current(0)` (a zero of the wrong tag) if
`_Y` is set; else an error; and `Isc` returns the stored `_Isc` if set and
otherwise `Voc / impedance`. -/
theorem voc_isc_resolution_order (st : LeafState) :
    (∀ w, st.Voc = some w → leafVoc st = .ok (.voltage, w)) ∧
    (st.Voc = none → ∀ ic, st.Isc = some ic → ∀ z, leafImpedance st = .ok z →
      leafVoc st = .ok (.voltage, mulE ic z)) ∧
    (st.Voc = none → st.Isc = none → ∀ z, st.Z = some z →
      leafVoc st = .ok (.voltage, const 0)) ∧
    (st.Voc = none → st.Isc = none → st.Z = none → ∀ y, st.Y = some y →
      leafVoc st = .ok (.current, const 0)) ∧
    (st.Voc = none → st.Isc = none → st.Z = none → st.Y = none →
      ∃ msg, leafVoc st = .error msg) ∧
    (∀ ic, st.Isc = some ic → leafIsc st = .ok ic) ∧
    (st.Isc = none → ∀ q z, leafVoc st = .ok q → leafImpedance st = .ok z →
      leafIsc st = .ok (divE q.2 z)) := by
  obtain ⟨z0, y0, v0, i0⟩ := st
  refine ⟨?_, ?_, ?_, ?_, ?_, ?_, ?_⟩
  · intro w hv
    cases hv
    rfl
  · intro hv ic hi z hz
    cases hv; cases hi
    simp only [leafVoc]
    rw [hz]
    rfl
  · intro hv hi z hz
    cases hv; cases hi; cases hz
    rfl
  · intro hv hi hz y hy
    cases hv; cases hi; cases hz; cases hy
    rfl
  · intro hv hi hz hy
    cases hv; cases hi; cases hz; cases hy
    exact ⟨_, rfl⟩
  · intro ic hi
    cases hi
    rfl
  · intro hi q z hv hz
    cases hi
    simp only [leafIsc]
    rw [hv, hz]
    rfl

/-- C7 witness: the stored-`_Voc` branch at a `V` leaf, the
`_Isc * impedance` branch at a pure current-source state, the `Current(0)`
cast at the open-circuit state of `O()`, and the `Voc / impedance` fallback
of `Isc` at a resistor state. -/
theorem voc_isc_resolution_order_witness :
    leafVoc (leafState (.V (const 7))) = .ok (.voltage, const 7) ∧
    leafVoc (leafState (.I (const 3))) =
      .ok (.voltage, mulE (const 3) (divE (const 1) (const 0))) ∧
    leafVoc (leafState .O) = .ok (.current, const 0) ∧
    leafIsc (leafState (.R 4)) = .ok (divE (const 0) (const 4)) :=
  ⟨(voc_isc_resolution_order (leafState (.V (const 7)))).1 (const 7) rfl,
   (voc_isc_resolution_order (leafState (.I (const 3)))).2.1
      rfl (const 3) rfl (divE (const 1) (const 0)) rfl,
   (voc_isc_resolution_order (leafState .O)).2.2.2.1 rfl rfl rfl (const 0) rfl,
   (voc_isc_resolution_order (leafState (.R 4))).2.2.2.2.2.2
      rfl (.voltage, const 0) (const 4) rfl rfl⟩

/-- C9: constructing a `Par` of two instances of the arbitrary
voltage-source class `V` always raises, for every pair of source values —
including equal ones — because the check looks only at the argument
classes.  Dually, `Ser` of two class-`I` instances always raises. -/
theorem par_two_V_always_raises :
    (∀ v1 v2 : SymExpr, mkPar [.leaf (.V v1), .leaf (.V v2)] =
      .error "ValueError: Voltage sources connected in parallel") ∧
    (∀ i1 i2 : SymExpr, mkSer [.leaf (.I i1), .leaf (.I i2)] =
      .error "ValueError: Current sources connected in series") :=
  ⟨fun _ _ => rfl, fun _ _ => rfl⟩

/-- Counting form of the pairwise constructor scan: some two distinct
positions satisfy the predicate exactly when at least two list members
satisfy it. -/
theorem hasTwo_iff_two_le_countP (p : OnePort → Bool) (l : List OnePort) :
    hasTwo p l = true ↔ 2 ≤ l.countP p := by
  induction l with
  | nil => simp [hasTwo]
  | cons a rest ih =>
      have hpos : rest.any p = true ↔ 0 < rest.countP p := by
        rw [List.any_eq_true, List.countP_pos_iff]
      rw [List.countP_cons]
      simp only [hasTwo, Bool.or_eq_true, Bool.and_eq_true, ih, hpos]
      by_cases hpa : p a = true
      · simp only [hpa, if_true, true_and]
        omega
      · simp only [hpa, Bool.false_eq_true, false_and, false_or, if_false]
        omega

/-- C2 (amended): construction of a `Par` fails exactly when at least two
of its arguments are instances of the class `V` itself, and construction of
a `Ser` fails exactly when at least two arguments are instances of the
class `I` itself; the other members of the source families (`Vdc`, `Vac`,
`Vstep`, `Vnoise`, `sV`, `v`, and the current duals) do not subclass
`V`/`I` and never trigger the error. -/
theorem ctor_check_only_class_V_I (args : List OnePort) :
    ((∃ e, mkPar args = .error e) ↔ 2 ≤ args.countP OnePort.isVLeaf) ∧
    ((∃ e, mkSer args = .error e) ↔ 2 ≤ args.countP OnePort.isILeaf) := by
  constructor
  · rw [← hasTwo_iff_two_le_countP]
    unfold mkPar ctorCheck
    by_cases h : hasTwo OnePort.isVLeaf args <;>
      simp [h, Bind.bind, Except.bind]
  · rw [← hasTwo_iff_two_le_countP]
    unfold mkSer ctorCheck
    by_cases h : hasTwo OnePort.isILeaf args <;>
      simp [h, Bind.bind, Except.bind]

/-- C2 counterexample: two DC voltage sources in parallel (and two DC
current sources in series) construct without any error, because `Vdc` is
not a subclass of `V` (nor `Idc` of `I`) — contradicting the claim that
the construction check fires for every variant of the source families. -/
theorem par_two_Vdc_constructs :
    mkPar [.leaf (.Vdc 1), .leaf (.Vdc 2)] =
      .ok (.par [.leaf (.Vdc 1), .leaf (.Vdc 2)]) ∧
    mkSer [.leaf (.Idc 1), .leaf (.Idc 2)] =
      .ok (.ser [.leaf (.Idc 1), .leaf (.Idc 2)]) :=
  ⟨rfl, rfl⟩

/-! Step lemmas for the simplification engine (the scan loops recurse on a
measure, so closed instances are computed through these unfoldings). -/

theorem outerScan_nil (op : PS) : outerScan op [] = .ok ([], false) := by
  simp only [outerScan]

theorem outerScan_cons_leaf (op : PS) (c1 : Cpt) (rest : List (Option OnePort))
    (a : Cpt) (r : List (Option OnePort)) (ch : Bool)
    (h : innerScan op c1 rest = .ok (a, r, ch)) :
    outerScan op (some (.leaf c1) :: rest) =
      (match outerScan op r with
       | .error e => .error e
       | .ok (r2, ch2) => .ok (some (.leaf a) :: r2, ch || ch2)) := by
  simp only [outerScan]
  split
  · rename_i e heq
    rw [h] at heq
    cases heq
  · rename_i a' r' ch' heq
    rw [h] at heq
    cases heq
    rfl

theorem outerScan_cons_leaf_error (op : PS) (c1 : Cpt)
    (rest : List (Option OnePort)) (e : String)
    (h : innerScan op c1 rest = .error e) :
    outerScan op (some (.leaf c1) :: rest) = .error e := by
  simp only [outerScan]
  split
  · rename_i e' heq
    rw [h] at heq
    cases heq
    rfl
  · rename_i a' r' ch' heq
    rw [h] at heq
    cases heq

theorem outerScan_cons_none (op : PS) (rest : List (Option OnePort)) :
    outerScan op (none :: rest) =
      (match outerScan op rest with
       | .error e => .error e
       | .ok (r, ch) => .ok (none :: r, ch)) := by
  simp only [outerScan]

theorem flattenArgs_leaves (op : PS) :
    ∀ cs : List Cpt, flattenArgs op (cs.map .leaf) = .ok (cs.map .leaf, false) := by
  intro cs
  induction cs with
  | nil => simp only [List.map_nil, flattenArgs]
  | cons c rest ih =>
      simp only [List.map_cons, flattenArgs, ih, Bind.bind, Except.bind]

/-- A two-leaf composite whose pair combines simplifies to the combined
single leaf. -/
theorem simplify_two_leaves_combined (op : PS) (c1 c2 nc : Cpt)
    (h : combine op c1 c2 = .ok (some nc)) :
    simplify (op.mk [.leaf c1, .leaf c2]) = .ok (.leaf nc) := by
  have hflat : flattenArgs op [.leaf c1, .leaf c2] =
      .ok ([.leaf c1, .leaf c2], false) := by
    simpa using flattenArgs_leaves op [c1, c2]
  have hin : innerScan op c1 [some (.leaf c2)] = .ok (nc, [none], true) := by
    simp only [innerScan, h]
  have hout : outerScan op [some (.leaf c1), some (.leaf c2)] =
      .ok ([some (.leaf nc), none], true) := by
    rw [outerScan_cons_leaf op c1 [some (.leaf c2)] nc [none] true hin,
        outerScan_cons_none, outerScan_nil]
    rfl
  cases op <;>
    (simp only [PS.mk, simplify, hflat, combinePhase, List.map, hout,
      Bind.bind, Except.bind, Pure.pure, Except.pure, Bool.false_eq_true,
      if_false, if_true, List.reduceOption, List.filterMap]
     rfl)

/-- A two-leaf composite whose combination raises propagates the error out
of `simplify`. -/
theorem simplify_two_leaves_error (op : PS) (c1 c2 : Cpt) (e : String)
    (h : combine op c1 c2 = .error e) :
    simplify (op.mk [.leaf c1, .leaf c2]) = .error e := by
  have hflat : flattenArgs op [.leaf c1, .leaf c2] =
      .ok ([.leaf c1, .leaf c2], false) := by
    simpa using flattenArgs_leaves op [c1, c2]
  have hin : innerScan op c1 [some (.leaf c2)] = .error e := by
    simp only [innerScan, h]
  have hout : outerScan op [some (.leaf c1), some (.leaf c2)] = .error e :=
    outerScan_cons_leaf_error op c1 [some (.leaf c2)] e hin
  cases op <;>
    (simp only [PS.mk, simplify, hflat, combinePhase, List.map, hout,
      Bind.bind, Except.bind, Pure.pure, Except.pure, Bool.false_eq_true,
      if_false, if_true]
     try rfl)

/-- C3 (amended): `simplify` of two sibling series inductors raises exactly
when their initial currents (an unspecified one reading as `0`) differ or
when exactly one of the two specifies an initial current; otherwise the
pair combines into a single inductor with the summed inductance, keeping
the (shared) initial current when both specified one.  In particular
`(L(10) + L(5)).simplify()` is a single `L(15)`. -/
theorem series_L_combine_rule (l1 l2 : ℚ) (o1 o2 : Option ℚ) :
    (simplify (.ser [.leaf (.L l1 o1), .leaf (.L l2 o2)]) =
      if o1.getD 0 ≠ o2.getD 0 || o1.isSome ≠ o2.isSome then
        .error "ValueError: Series inductors with different initial currents!"
      else
        .ok (.leaf (.L (l1 + l2) (if o1.isSome then some (o1.getD 0) else none)))) ∧
    simplify (.ser [.leaf (.L 10 none), .leaf (.L 5 none)]) =
      .ok (.leaf (.L 15 none)) := by
  constructor
  · by_cases hc : (o1.getD 0 ≠ o2.getD 0 || o1.isSome ≠ o2.isSome : Bool) = true
    · rw [if_pos hc]
      refine simplify_two_leaves_error .serOp _ _ _ ?_
      unfold combine
      simp only [Cpt.kind, ne_eq, not_true_eq_false, if_false, reduceCtorEq]
      rw [if_pos hc]
    · rw [if_neg hc]
      refine simplify_two_leaves_combined .serOp _ _ _ ?_
      unfold combine
      simp only [Cpt.kind, ne_eq, not_true_eq_false, if_false, reduceCtorEq]
      rw [if_neg hc]
  · exact simplify_two_leaves_combined .serOp (.L 10 none) (.L 5 none)
      (.L 15 none) (by norm_num [combine, Cpt.kind])

/-- The accumulation loop of `Ser.impedance` computes the left fold of the
engine's addition over the children's impedances. -/
theorem serZSum_eq_foldl :
    ∀ (args : List OnePort) (zs : List SymExpr) (acc : SymExpr),
      args.mapM impedance = .ok zs → serZSum acc args = .ok (zs.foldl addE acc) := by
  intro args
  induction args with
  | nil =>
      intro zs acc h
      simp only [List.mapM_nil, Pure.pure, Except.pure, Except.ok.injEq] at h
      cases h
      simp only [serZSum, List.foldl_nil]
  | cons a rest ih =>
      intro zs acc h
      rw [List.mapM_cons] at h
      rcases ha : impedance a with e | z
      · rw [ha] at h
        simp [Bind.bind, Except.bind] at h
      · rw [ha] at h
        rcases hrest : rest.mapM impedance with e | zs'
        · rw [hrest] at h
          simp [Bind.bind, Except.bind] at h
        · rw [hrest] at h
          simp only [Bind.bind, Except.bind, Pure.pure, Except.pure,
            Except.ok.injEq] at h
          cases h
          simp only [serZSum, ha, Bind.bind, Except.bind, List.foldl_cons]
          exact ih zs' (addE acc z) hrest

/-- The accumulation loop of `Par.admittance` computes the left fold of the
engine's addition over the children's admittances. -/
theorem parYSum_eq_foldl :
    ∀ (args : List OnePort) (ys : List SymExpr) (acc : SymExpr),
      args.mapM admittance = .ok ys → parYSum acc args = .ok (ys.foldl addE acc) := by
  intro args
  induction args with
  | nil =>
      intro ys acc h
      simp only [List.mapM_nil, Pure.pure, Except.pure, Except.ok.injEq] at h
      cases h
      simp only [parYSum, List.foldl_nil]
  | cons a rest ih =>
      intro ys acc h
      rw [List.mapM_cons] at h
      rcases ha : admittance a with e | y
      · rw [ha] at h
        simp [Bind.bind, Except.bind] at h
      · rw [ha] at h
        rcases hrest : rest.mapM admittance with e | ys'
        · rw [hrest] at h
          simp [Bind.bind, Except.bind] at h
        · rw [hrest] at h
          simp only [Bind.bind, Except.bind, Pure.pure, Except.pure,
            Except.ok.injEq] at h
          cases h
          simp only [parYSum, ha, Bind.bind, Except.bind, List.foldl_cons]
          exact ih ys' (addE acc y) hrest

/-- C4: the impedance of a `Ser` is the (engine) sum of its children's
impedances, the admittance of a `Par` is the sum of its children's
admittances, and each composite's dual quantity is the reciprocal of its
summed quantity — never the sum of the children's dual quantities (the
closing conjuncts exhibit two series resistors whose series admittance,
`1/2`, differs from the sum `2` of the children's admittances). -/
theorem composite_sum_reciprocal_rule :
    (∀ (args : List OnePort) (zs : List SymExpr),
      args.mapM impedance = .ok zs →
      impedance (.ser args) = .ok (zs.foldl addE (const 0))) ∧
    (∀ (args : List OnePort) (ys : List SymExpr),
      args.mapM admittance = .ok ys →
      admittance (.par args) = .ok (ys.foldl addE (const 0))) ∧
    (∀ (args : List OnePort) (z : SymExpr), impedance (.ser args) = .ok z →
      admittance (.ser args) = .ok (divE (const 1) z)) ∧
    (∀ (args : List OnePort) (y : SymExpr), admittance (.par args) = .ok y →
      impedance (.par args) = .ok (divE (const 1) y)) ∧
    admittance (.ser [.leaf (.R 1), .leaf (.R 1)]) = .ok (const (1 / 2)) ∧
    [OnePort.leaf (.R 1), .leaf (.R 1)].mapM admittance = .ok [const 1, const 1] ∧
    ([const 1, const 1].foldl addE (const 0) : SymExpr) = const 2 ∧
    (const (1 / 2) : SymExpr) ≠ const 2 := by
  have hser : ∀ args : List OnePort,
      impedance (.ser args) = serZSum (const 0) args := by
    intro args
    simp only [impedance]
  have hpar : ∀ args : List OnePort,
      admittance (.par args) = parYSum (const 0) args := by
    intro args
    simp only [admittance]
  refine ⟨?_, ?_, ?_, ?_, ?_, ?_, ?_, ?_⟩
  · intro args zs h
    rw [hser]
    exact serZSum_eq_foldl args zs (const 0) h
  · intro args ys h
    rw [hpar]
    exact parYSum_eq_foldl args ys (const 0) h
  · intro args z h
    rw [hser] at h
    simp only [admittance, h, Bind.bind, Except.bind]
  · intro args y h
    rw [hpar] at h
    simp only [impedance, h, Bind.bind, Except.bind]
  · simp only [admittance, serZSum, impedance, Bind.bind, Except.bind]
    norm_num [leafImpedance, leafState, addE, divE]
  · simp only [List.mapM_cons, List.mapM_nil, admittance]
    norm_num [leafAdmittance, leafImpedance, leafState, divE,
      Bind.bind, Except.bind, Pure.pure, Except.pure]
  · norm_num [addE]
  · simp only [ne_eq, SymExpr.const.injEq]
    norm_num

/-- C4 witness: two concrete series resistors instantiate the sum rule and
the reciprocal rule. -/
theorem composite_sum_reciprocal_rule_witness :
    impedance (.ser [.leaf (.R 2), .leaf (.R 3)]) = .ok (const 5) ∧
    admittance (.ser [.leaf (.R 2), .leaf (.R 3)]) =
      .ok (divE (const 1) (const 5)) := by
  have hm : [OnePort.leaf (.R 2), .leaf (.R 3)].mapM impedance =
      .ok [const 2, const 3] := by
    simp only [List.mapM_cons, List.mapM_nil, impedance]
    rfl
  have h1 : impedance (.ser [.leaf (.R 2), .leaf (.R 3)]) = .ok (const 5) := by
    have := composite_sum_reciprocal_rule.1 [.leaf (.R 2), .leaf (.R 3)]
      [const 2, const 3] hm
    norm_num [addE] at this
    exact this
  exact ⟨h1, composite_sum_reciprocal_rule.2.2.1 _ (const 5) h1⟩

/-- A class-`R`/`Z` leaf is not of class `V`. -/
theorem isRorZ_not_isV (c : Cpt) (h : c.isRorZ = true) : c.isV = false := by
  cases c <;> simp_all [Cpt.isRorZ, Cpt.isV, Cpt.kind]

/-- A class-`Y`/`G` leaf is not of class `I`. -/
theorem isYorG_not_isI (c : Cpt) (h : c.isYorG = true) : c.isI = false := by
  cases c <;> simp_all [Cpt.isYorG, Cpt.isI, Cpt.kind]

/-- C5: during the pairwise-combine phase, a degenerate element of a
cross-type pair is absorbed, returning the other operand unchanged: in a
`Ser`, a class-`V` source with zero open-circuit voltage or a class-`R`/`Z`
leaf with zero impedance; dually in a `Par`, a class-`I` source with zero
short-circuit current or a class-`Y`/`G` leaf with zero admittance.  In
particular `(R(0) + V(5)).simplify()` reduces to `V(5)` alone. -/
theorem degenerate_absorption :
    (∀ c1 c2 : Cpt, c1.kind ≠ c2.kind → serDegenerate c1 = true →
      serDegenerate c2 = false → combine .serOp c1 c2 = .ok (some c2)) ∧
    (∀ c1 c2 : Cpt, c1.kind ≠ c2.kind → serDegenerate c1 = false →
      serDegenerate c2 = true → combine .serOp c1 c2 = .ok (some c1)) ∧
    (∀ c1 c2 : Cpt, c1.kind ≠ c2.kind → parDegenerate c1 = true →
      parDegenerate c2 = false → combine .parOp c1 c2 = .ok (some c2)) ∧
    (∀ c1 c2 : Cpt, c1.kind ≠ c2.kind → parDegenerate c1 = false →
      parDegenerate c2 = true → combine .parOp c1 c2 = .ok (some c1)) ∧
    simplify (.ser [.leaf (.R 0), .leaf (.V (const 5))]) =
      .ok (.leaf (.V (const 5))) := by
  refine ⟨?_, ?_, ?_, ?_, ?_⟩
  · intro c1 c2 hk h1 h2
    unfold serDegenerate at h1 h2
    rw [Bool.or_eq_false_iff] at h2
    unfold combine
    rw [if_pos hk]
    dsimp only
    rw [Bool.or_eq_true] at h1
    rcases h1 with hA | hB
    · rw [if_pos hA]
    · have hv1 : c1.isV = false := by
        have hB' := hB
        rw [Bool.and_eq_true] at hB'
        exact isRorZ_not_isV c1 hB'.1
      rw [if_neg (by simp [hv1]), if_neg (by simp [h2.1]), if_pos hB]
  · intro c1 c2 hk h1 h2
    unfold serDegenerate at h1 h2
    rw [Bool.or_eq_false_iff] at h1
    unfold combine
    rw [if_pos hk]
    dsimp only
    rw [Bool.or_eq_true] at h2
    rcases h2 with hA | hB
    · rw [if_neg (by simp [h1.1]), if_pos hA]
    · have hv2 : c2.isV = false := by
        have hB' := hB
        rw [Bool.and_eq_true] at hB'
        exact isRorZ_not_isV c2 hB'.1
      rw [if_neg (by simp [h1.1]), if_neg (by simp [hv2]),
        if_neg (by simp [h1.2]), if_pos hB]
  · intro c1 c2 hk h1 h2
    unfold parDegenerate at h1 h2
    rw [Bool.or_eq_false_iff] at h2
    unfold combine
    rw [if_pos hk]
    dsimp only
    rw [Bool.or_eq_true] at h1
    rcases h1 with hA | hB
    · rw [if_pos hA]
    · have hi1 : c1.isI = false := by
        have hB' := hB
        rw [Bool.and_eq_true] at hB'
        exact isYorG_not_isI c1 hB'.1
      rw [if_neg (by simp [hi1]), if_neg (by simp [h2.1]), if_pos hB]
  · intro c1 c2 hk h1 h2
    unfold parDegenerate at h1 h2
    rw [Bool.or_eq_false_iff] at h1
    unfold combine
    rw [if_pos hk]
    dsimp only
    rw [Bool.or_eq_true] at h2
    rcases h2 with hA | hB
    · rw [if_neg (by simp [h1.1]), if_pos hA]
    · have hi2 : c2.isI = false := by
        have hB' := hB
        rw [Bool.and_eq_true] at hB'
        exact isYorG_not_isI c2 hB'.1
      rw [if_neg (by simp [h1.1]), if_neg (by simp [hi2]),
        if_neg (by simp [h1.2]), if_pos hB]
  · exact simplify_two_leaves_combined .serOp (.R 0) (.V (const 5))
      (.V (const 5)) rfl

/-- C5 witness: a zero-voltage class-`V` source in series with a (plain)
resistor is absorbed by the first rule. -/
theorem degenerate_absorption_witness :
    (Cpt.V (const 0)).kind ≠ (Cpt.R 7).kind ∧
    serDegenerate (.V (const 0)) = true ∧
    serDegenerate (.R 7) = false ∧
    combine .serOp (.V (const 0)) (.R 7) = .ok (some (.R 7)) :=
  ⟨by decide, by decide, by decide,
   degenerate_absorption.1 (.V (const 0)) (.R 7) (by decide) (by decide)
     (by decide)⟩

/-- C6 (amended): after simplification and domain resolution, `thevenin()`
returns `Ser(Z1, V1)` except that it degenerates to just the impedance
leaf when the simplified network's `Voc` is zero and (otherwise) to just
the voltage leaf when its impedance is zero; `norton()` is the exact dual,
degenerating to just the admittance leaf when `Isc` is zero and (otherwise)
to just the *current* leaf when the admittance is zero — a current source,
not a voltage leaf. -/
theorem thevenin_norton_shape :
    (∀ (n n' : OnePort) (tg : QTag) (vo z : SymExpr),
      simplify n = .ok n' → Voc n' = .ok (tg, vo) → impedance n' = .ok z →
      thevenin n = .ok (if isZero vo then cptImpedance z
        else if isZero z then cptVoltage vo
        else .ser [cptImpedance z, cptVoltage vo])) ∧
    (∀ (n n' : OnePort) (ic y : SymExpr),
      simplify n = .ok n' → Isc n' = .ok ic → admittance n' = .ok y →
      norton n = .ok (if isZero ic then cptAdmittance y
        else if isZero y then cptCurrent ic
        else .par [cptAdmittance y, cptCurrent ic])) := by
  constructor
  · intro n n' tg vo z hs hv hz
    unfold thevenin
    rw [hs]
    simp only [Bind.bind, Except.bind]
    rw [hv]
    simp only [Bind.bind, Except.bind]
    rw [hz]
    simp only [Bind.bind, Except.bind]
    by_cases h1 : isZero vo = true
    · simp [h1]
    · by_cases h2 : isZero z = true
      · simp [h1, h2]
      · simp only [h1, h2, Bool.false_eq_true, if_false, ctorCheck, hasTwo,
          cptImpedance, cptVoltage, OnePort.isILeaf, Cpt.isI, Cpt.kind,
          List.any_nil, List.any_cons, Bind.bind, Except.bind]
        simp
  · intro n n' ic y hs hi hy
    unfold norton
    rw [hs]
    simp only [Bind.bind, Except.bind]
    rw [hi]
    simp only [Bind.bind, Except.bind]
    rw [hy]
    simp only [Bind.bind, Except.bind]
    by_cases h1 : isZero ic = true
    · simp [h1]
    · by_cases h2 : isZero y = true
      · simp [h1, h2]
      · simp only [h1, h2, Bool.false_eq_true, if_false, ctorCheck, hasTwo,
          cptCurrent, cptAdmittance, OnePort.isVLeaf, Cpt.isV, Cpt.kind,
          List.any_nil, List.any_cons, Bind.bind, Except.bind]
        simp

/-- C6 witness: a lone resistor has `Voc == 0`, so `thevenin()` returns
just the impedance leaf; a lone DC current source has zero admittance and
nonzero `Isc`, so `norton()` returns just the current leaf. -/
theorem thevenin_norton_shape_witness :
    thevenin (.leaf (.R 5)) = .ok (cptImpedance (const 5)) ∧
    norton (.leaf (.Idc 2)) = .ok (cptCurrent (const 2)) := by
  constructor
  · have hs : simplify (.leaf (.R 5)) = .ok (.leaf (.R 5)) := by
      simp only [simplify]
    have hv : Voc (.leaf (.R 5)) = .ok (.voltage, const 0) := by
      simp only [Voc]
      rfl
    have hz : impedance (.leaf (.R 5)) = .ok (const 5) := by
      simp only [impedance]
      rfl
    have := thevenin_norton_shape.1 (.leaf (.R 5)) (.leaf (.R 5)) .voltage
      (const 0) (const 5) hs hv hz
    norm_num [isZero] at this
    exact this
  · have hs : simplify (.leaf (.Idc 2)) = .ok (.leaf (.Idc 2)) := by
      simp only [simplify]
    have hi : Isc (.leaf (.Idc 2)) = .ok (const 2) := by
      simp only [Isc]
      rfl
    have hy : admittance (.leaf (.Idc 2)) = .ok (const 0) := by
      simp only [admittance]
      rfl
    have := thevenin_norton_shape.2 (.leaf (.Idc 2)) (.leaf (.Idc 2))
      (const 2) (const 0) hs hi hy
    norm_num [isZero] at this
    exact this

/-- C6 counterexample: `norton()` of an arbitrary current source — a
network with zero admittance and nonzero `Isc` — returns the *current*
source leaf `I(5)`, which is not a voltage leaf, contradicting the claim
that `norton()` of a network with zero admittance returns just the voltage
leaf. -/
theorem norton_zero_admittance_current_leaf :
    norton (.leaf (.I (const 5))) = .ok (.leaf (.I (const 5))) ∧
    OnePort.isVoltageLeaf (.leaf (.I (const 5))) = false := by
  constructor
  · unfold norton
    simp only [simplify, Isc, admittance, Bind.bind, Except.bind]
    rfl
  · rfl

/-- C8 (amended): `.V` returns `self.Voc` for every one-port, but `.I` is
`self.Isc` only for current-source leaves (`CurrentSource.I` overrides the
base property); for every other one-port `.I` is the open-circuit current
`Current(0)`, which in general differs from `.Isc`. -/
theorem V_I_alias_rule :
    (∀ n : OnePort, Vprop n = Voc n) ∧
    (∀ c : Cpt, c.isCurrentSource = true →
      ∀ ic, leafIsc (leafState c) = .ok ic →
      Iprop (.leaf c) = .ok (.current, ic)) ∧
    (∀ n : OnePort, n.isCurrentLeaf = false →
      Iprop n = .ok (.current, const 0)) := by
  refine ⟨fun n => rfl, ?_, ?_⟩
  · intro c hc ic hic
    simp only [Iprop, hc, if_true, hic, Bind.bind, Except.bind]
  · intro n hn
    cases n with
    | leaf c =>
        simp only [OnePort.isCurrentLeaf] at hn
        simp only [Iprop, hn, Bool.false_eq_true, if_false]
    | ser args => rfl
    | par args => rfl

/-- C8 witness: the overridden alias at a DC current source and the base
zero at a resistor. -/
theorem V_I_alias_rule_witness :
    Iprop (.leaf (.Idc 2)) = .ok (.current, const 2) ∧
    Iprop (.leaf (.R 1)) = .ok (.current, const 0) :=
  ⟨V_I_alias_rule.2.1 (.Idc 2) rfl (const 2) rfl,
   V_I_alias_rule.2.2 (.leaf (.R 1)) rfl⟩

/-- C8 counterexample: for an inductor with a nonzero initial current —
a one-port that is not a current source — `.I` is `Current(0)` while
`.Isc` is the nonzero `-2/s`, so `.I` does not return the same value as
`.Isc`. -/
theorem I_alias_ne_Isc :
    Iprop (.leaf (.L 1 (some 2))) = .ok (.current, const 0) ∧
    Isc (.leaf (.L 1 (some 2))) = .ok (.div (const (-2)) svar) ∧
    (const 0 : SymExpr) ≠ .div (const (-2)) svar := by
  refine ⟨rfl, ?_, by decide⟩
  have hst : leafState (.L 1 (some 2)) =
      ⟨some svar, none, some (const (-2)), none⟩ := by
    norm_num [leafState, mulE, Option.getD]
    rw [if_neg (fun h => SymExpr.noConfusion h),
      if_neg (fun h => SymExpr.noConfusion h)]
  simp only [Isc]
  rw [hst]
  rfl

/-- The engine's addition agrees with rational evaluation. -/
theorem eval_addE (q : ℚ) (a b : SymExpr) (x y : ℚ)
    (ha : a.eval q = some x) (hb : b.eval q = some y) :
    (addE a b).eval q = some (x + y) := by
  unfold addE
  split
  · rename_i a' b'
    simp only [eval, Option.some.injEq] at ha hb
    subst ha
    subst hb
    rfl
  · simp only [eval] at ha
    cases ha
  · simp only [eval] at hb
    cases hb
  · split_ifs with h0 h1
    · subst h0
      simp only [eval, Option.some.injEq] at ha
      subst ha
      simpa using hb
    · subst h1
      simp only [eval, Option.some.injEq] at hb
      subst hb
      simpa using ha
    · simp [eval, ha, hb]

/-- The engine's multiplication agrees with rational evaluation. -/
theorem eval_mulE (q : ℚ) (a b : SymExpr) (x y : ℚ)
    (ha : a.eval q = some x) (hb : b.eval q = some y) :
    (mulE a b).eval q = some (x * y) := by
  unfold mulE
  split
  · rename_i a' b'
    simp only [eval, Option.some.injEq] at ha hb
    subst ha
    subst hb
    rfl
  · simp only [eval] at ha
    cases ha
  · simp only [eval] at hb
    cases hb
  · split_ifs with h0 h1 h2
    · rcases h0 with h0 | h0
      · subst h0
        simp only [eval, Option.some.injEq] at ha
        subst ha
        simp [eval]
      · subst h0
        simp only [eval, Option.some.injEq] at hb
        subst hb
        simp [eval]
    · subst h1
      simp only [eval, Option.some.injEq] at ha
      subst ha
      simpa using hb
    · subst h2
      simp only [eval, Option.some.injEq] at hb
      subst hb
      simpa using ha
    · simp [eval, ha, hb]

/-- The engine's division agrees with rational evaluation away from zero
denominators. -/
theorem eval_divE (q : ℚ) (a b : SymExpr) (x y : ℚ)
    (ha : a.eval q = some x) (hb : b.eval q = some y) (hy : y ≠ 0) :
    (divE a b).eval q = some (x / y) := by
  unfold divE
  split_ifs with h0
  · subst h0
    simp only [eval, Option.some.injEq] at hb
    exact absurd hb.symm hy
  · split
    · rename_i x' y'
      simp only [eval, Option.some.injEq] at ha hb
      subst ha
      subst hb
      rfl
    · simp only [eval] at hb
      cases hb
    · split_ifs with h1 h2
      · subst h1
        simp only [eval, Option.some.injEq] at ha
        subst ha
        simp [eval]
      · subst h2
        simp only [eval, Option.some.injEq] at hb
        subst hb
        simpa using ha
      · simp only [eval, ha, hb, Bind.bind, Option.bind]
        rw [if_neg hy]
        rfl

/-- C10: `FerriteBead.expand()` is the purely series chain
`R(Rs) + (R(Rp) + L(Lp) + C(Cp))` with no `Parallel` node anywhere, and
the `_Z` fixed at construction (the impedance of the expansion) evaluates,
at every admissible Laplace point, to the series sum
`Rs + Rp + s*Lp + 1/(s*Cp)`. -/
theorem ferrite_bead_series_expansion (Rs Rp Cp Lp : ℚ) :
    FerriteBead.expand Rs Rp Cp Lp =
      .ser [.leaf (.R Rs),
            .ser [.ser [.leaf (.R Rp), .leaf (.L Lp none)],
                  .leaf (.C Cp none)]] ∧
    containsPar (FerriteBead.expand Rs Rp Cp Lp) = false ∧
    ∀ q : ℚ, q ≠ 0 → Cp ≠ 0 →
      zEval (FerriteBead.Z Rs Rp Cp Lp) q =
        some (Rs + Rp + q * Lp + 1 / (q * Cp)) := by
  refine ⟨rfl, ?_, ?_⟩
  · simp only [FerriteBead.expand, containsPar, containsParList, Bool.or_false]
  · intro q hq hCp
    have hz : FerriteBead.Z Rs Rp Cp Lp = .ok
        (addE (addE (const 0) (const Rs))
          (addE (addE (const 0)
              (addE (addE (const 0) (const Rp)) (mulE svar (const Lp))))
            (divE (const 1) (mulE svar (const Cp))))) := by
      simp only [FerriteBead.Z, FerriteBead.expand, impedance, serZSum,
        leafImpedance, leafState, Bind.bind, Except.bind]
    rw [hz]
    simp only [zEval]
    have e0 : (const 0 : SymExpr).eval q = some 0 := rfl
    have eRs : (const Rs : SymExpr).eval q = some Rs := rfl
    have eRp : (const Rp : SymExpr).eval q = some Rp := rfl
    have e1 : (const 1 : SymExpr).eval q = some 1 := rfl
    have es : (svar : SymExpr).eval q = some q := rfl
    have eL : (mulE svar (const Lp)).eval q = some (q * Lp) :=
      eval_mulE q svar (const Lp) q Lp es rfl
    have eC : (mulE svar (const Cp)).eval q = some (q * Cp) :=
      eval_mulE q svar (const Cp) q Cp es rfl
    have eInv : (divE (const 1) (mulE svar (const Cp))).eval q =
        some (1 / (q * Cp)) :=
      eval_divE q (const 1) (mulE svar (const Cp)) 1 (q * Cp) e1 eC
        (mul_ne_zero hq hCp)
    have a1 := eval_addE q (const 0) (const Rp) 0 Rp e0 eRp
    have a2 := eval_addE q _ _ _ _ a1 eL
    have a3 := eval_addE q _ _ _ _ e0 a2
    have a4 := eval_addE q _ _ _ _ a3 eInv
    have a5 := eval_addE q (const 0) (const Rs) 0 Rs e0 eRs
    have a6 := eval_addE q _ _ _ _ a5 a4
    rw [a6]
    simp only [Option.some.injEq]
    ring

/-- C10 witness: concrete bead parameters evaluated at `s = 1`. -/
theorem ferrite_bead_series_expansion_witness :
    (1 : ℚ) ≠ 0 ∧ (3 : ℚ) ≠ 0 ∧
    zEval (FerriteBead.Z 1 2 3 4) 1 = some (22 / 3) := by
  refine ⟨one_ne_zero, by norm_num, ?_⟩
  have := (ferrite_bead_series_expansion 1 2 3 4).2.2 1 one_ne_zero
    (by norm_num)
  norm_num at this
  convert this using 2
  try norm_num

/-- C3 counterexample: a pair of series inductors where only one specifies
an initial current — the claim says it combines without error, but the
source raises because the `hasic` flags differ (indeed the stored currents
`5` and default `0` also differ). -/
theorem series_L_single_ic_errors :
    simplify (.ser [.leaf (.L 10 (some 5)), .leaf (.L 5 none)]) =
      .error "ValueError: Series inductors with different initial currents!" :=
  simplify_two_leaves_error .serOp (.L 10 (some 5)) (.L 5 none) _ rfl

end Lcapy
